import Mathlib

/-!
# go-fileutil: a shallow embedding of `fileutil.go`

The Go package is a thin layer over the operating system's file calls.  The
embedding keeps that layering: the calls the package makes into `os`,
`io`, `io/ioutil` and `path/filepath` are the fields of a record `OS σ` over
a state type `σ` (the file system), and every function of `fileutil.go` is a
Lean function of such a record, the state it runs in, and its Go arguments.

The library's `sort.Sort` is likewise not part of the package: the six sort
operations take it as a parameter, and what is proved of them is proved for
every procedure that keeps what package `sort` documents of `Sort`.

* Go `string` is `String`, `[]byte` is `List Nat`, `int64` is `Int`,
  `os.FileMode` (a `uint32` bit set) is `Nat`.
* Go `error` is `Option Error`, `none` being `nil`.
* A Go function with several results returns a tuple, in the Go order.
-/

namespace fileutil

/-! ## Errors -/

/-- The error values the package meets: the sentinels of `os`, `io` and
`path/filepath`, the values made by `errors.New`, and any other error number
of the platform. -/
inductive Error where
  | ErrNotExist
  | ErrExist
  | ErrPermission
  | ErrInvalid
  | ErrShortWrite
  | ErrBadPattern
  | New (text : String)
  | Errno (code : Nat)
  deriving DecidableEq

/-- Go `os.IsNotExist`: whether the error reports that a file or directory
does not exist, which `os.ErrNotExist` and the error number `ENOENT` (2)
do. -/
def IsNotExist : Error → Bool
  | .ErrNotExist => true
  | .Errno 2 => true
  | _ => false

/-! ## Time -/

/-- Go `time.Time` for a wall-clock instant: seconds since the Unix epoch and
nanoseconds within the second. -/
structure Time where
  sec : Int
  nsec : Nat
  deriving DecidableEq

/-- Go `time.Unix(sec, nsec)` for `0 ≤ nsec < 1e9`. -/
def Time.ofUnix (sec : Int) (nsec : Nat) : Time := ⟨sec, nsec⟩

/-- Go `int64` wrap-around of an integer. -/
def wrapInt64 (x : Int) : Int := (x + 2 ^ 63) % 2 ^ 64 - 2 ^ 63

/-- Go `Time.Unix`: seconds since the epoch. -/
def Time.Unix (t : Time) : Int := t.sec

/-- Go `Time.UnixNano`: nanoseconds since the epoch, in `int64` arithmetic. -/
def Time.UnixNano (t : Time) : Int := wrapInt64 (t.sec * 1000000000 + t.nsec)

/-- Go `Time.Before`: the instant `t` is before `u`. -/
def Time.Before (t u : Time) : Bool :=
  decide (t.sec < u.sec) || (decide (t.sec = u.sec) && decide (t.nsec < u.nsec))

/-! ## File modes -/

/-- Go `os.ModeType`: the bits of a mode that say what kind of file it is
(`ModeDir | ModeSymlink | ModeNamedPipe | ModeSocket | ModeDevice |
ModeCharDevice | ModeIrregular`). -/
def ModeType : Nat :=
  2 ^ 31 ||| 2 ^ 27 ||| 2 ^ 25 ||| 2 ^ 24 ||| 2 ^ 26 ||| 2 ^ 21 ||| 2 ^ 19

/-- Go `os.ModeDir`. -/
def ModeDir : Nat := 2 ^ 31

/-- Go `os.ModePerm`: the Unix permission bits, `0777`. -/
def ModePerm : Nat := 0o777

/-- Go `FileMode.IsRegular`: no type bit is set. -/
def FileMode.IsRegular (m : Nat) : Bool := m &&& ModeType == 0

/-- Go `FileMode.Perm`: the permission bits of the mode. -/
def FileMode.Perm (m : Nat) : Nat := m &&& ModePerm

/-! ## File metadata -/

/-- Go `os.FileInfo` as returned by `os.Stat`: the four accessors the
package uses, and the device and inode numbers behind `os.SameFile`. -/
structure FileInfo where
  Name : String
  Size : Int
  Mode : Nat
  ModTime : Time
  dev : Nat
  ino : Nat
  deriving DecidableEq

/-- Go `FilesInfo`, a slice of `FileInfo`. -/
abbrev FilesInfo := List FileInfo

/-- Go `os.SameFile`: both describe the same file, that is, the same device
and inode. -/
def SameFile (a b : FileInfo) : Bool := a.dev == b.dev && a.ino == b.ino

/-! ## The platform -/

/-- The calls `fileutil.go` makes into the Go standard library, over a file
system state `σ`.  A call that can change the file system returns the state
it leaves; `Stat`, `Glob` and `ReadFile` only read it.  Open files are named
by descriptor numbers. -/
structure OS (σ : Type) where
  /-- Go `os.Stat`. -/
  Stat : σ → String → Except Error FileInfo
  /-- Go `os.Link(oldname, newname)`. -/
  Link : σ → String → String → Option Error × σ
  /-- Go `os.Open`. -/
  Open : σ → String → Except Error Nat × σ
  /-- Go `os.Create`. -/
  Create : σ → String → Except Error Nat × σ
  /-- Go `io.Copy(dst, src)`: the number of bytes written and the error. -/
  Stream : σ → Nat → Nat → (Int × Option Error) × σ
  /-- Go `(*os.File).Sync`. -/
  Sync : σ → Nat → Option Error × σ
  /-- Go `(*os.File).Close`, its error dropped as the callers drop it. -/
  Close : σ → Nat → σ
  /-- Go `filepath.Glob`. -/
  Glob : σ → String → Except Error (List String)
  /-- Go `ioutil.ReadFile`. -/
  ReadFile : σ → String → Except Error (List Nat)

variable {σ : Type}

/-! ## Metadata accessors -/

/-- Go `GetFileInfo`. -/
def GetFileInfo (os : OS σ) (s : σ) (name : String) : Except Error FileInfo :=
  os.Stat s name

/-- Go `Exists`. -/
def Exists (os : OS σ) (s : σ) (filename : String) : Bool × Option Error :=
  match GetFileInfo os s filename with
  | .error err => if IsNotExist err then (false, some err) else (true, none)
  | .ok _ => (true, none)

/-- Go `Size`. -/
def Size (os : OS σ) (s : σ) (filename : String) : Int × Option Error :=
  match GetFileInfo os s filename with
  | .error err => (-1, some err)
  | .ok fi => (fi.Size, none)

/-- Go `ModTime`. -/
def ModTime (os : OS σ) (s : σ) (filename : String) : Time × Option Error :=
  match GetFileInfo os s filename with
  | .error err => (Time.ofUnix 0 0, some err)
  | .ok fi => (fi.ModTime, none)

/-- Go `ModTimeUnix`. -/
def ModTimeUnix (os : OS σ) (s : σ) (filename : String) : Int × Option Error :=
  match ModTime os s filename with
  | (_, some err) => (-1, some err)
  | (ft, none) => (ft.Unix, none)

/-- Go `ModTimeUnixNano`. -/
def ModTimeUnixNano (os : OS σ) (s : σ) (filename : String) : Int × Option Error :=
  match ModTime os s filename with
  | (_, some err) => (-1, some err)
  | (ft, none) => (ft.UnixNano, none)

/-- Go `Mode`. -/
def Mode (os : OS σ) (s : σ) (filename : String) : Nat × Option Error :=
  match GetFileInfo os s filename with
  | .error err => (0, some err)
  | .ok fi => (fi.Mode, none)

/-- Go `Perm`. -/
def Perm (os : OS σ) (s : σ) (filename : String) : Nat × Option Error :=
  match GetFileInfo os s filename with
  | .error err => (0, some err)
  | .ok fi => (FileMode.Perm fi.Mode, none)

/-- Go `Read`. -/
def Read (os : OS σ) (s : σ) (filename : String) : Except Error (List Nat) :=
  os.ReadFile s filename

/-! ## Copy -/

/-- The part of Go `Copy` after the checks on source and destination: the
hard link, and when that fails the streamed copy and the sync.  The two
`Close` calls are deferred: they run when the function returns, the
destination's first. -/
def Copy.transfer (os : OS σ) (s : σ) (source dest : String) : Option Error × σ :=
  -- hardlink source to dest
  match os.Link s source dest with
  | (none, s1) => (none, s1)
  | (some _, s1) =>
    -- cannot hardlink , copy contents
    match os.Open s1 source with
    | (.error err, s2) => (some err, s2)
    | (.ok fin, s2) =>
      match os.Create s2 dest with
      | (.error err, s3) => (some err, os.Close s3 fin)
      | (.ok fout, s3) =>
        match os.Stream s3 fout fin with
        | ((_, some err), s4) => (some err, os.Close (os.Close s4 fout) fin)
        | ((_, none), s4) =>
          -- syncing file
          match os.Sync s4 fout with
          | (err, s5) => (err, os.Close (os.Close s5 fout) fin)

/-- Go `Copy`.  In the two branches for a file that is not regular the source
builds an error value with `errors.New` and drops it; the bare `return` then
returns the named result `err`, which is `nil` there since the lookup before
it succeeded. -/
def Copy (os : OS σ) (s : σ) (source dest : String) : Option Error × σ :=
  -- checks source file is regular file
  match GetFileInfo os s source with
  | .error err => (some err, s)
  | .ok sfi =>
    if !FileMode.IsRegular sfi.Mode then
      let _dropped := Error.New "cannot copy non-regular files."
      (none, s)
    else
      -- checks dest file is regular file or the same
      match GetFileInfo os s dest with
      | .error err =>
        if !IsNotExist err then (some err, s)
        else Copy.transfer os s source dest
      | .ok dfi =>
        if !FileMode.IsRegular dfi.Mode then
          let _dropped := Error.New "cannot copy to non-regular files."
          (none, s)
        else if SameFile sfi dfi then (none, s)
        else Copy.transfer os s source dest

/-! ## Find -/

/-- The loop of Go `Find`: the metadata of each match whose lookup succeeds is
appended to `files`. -/
def Find.loop (os : OS σ) (s : σ) : List String → FilesInfo → FilesInfo
  | [], files => files
  | f :: rest, files =>
    match GetFileInfo os s f with
    | .ok fi => Find.loop os s rest (files ++ [fi])
    | .error _ => Find.loop os s rest files

/-- Go `Find`.  The listing is `none` for the `nil` slice and `some l` for a
slice that was made, empty or not. -/
def Find (os : OS σ) (s : σ) (pattern : String) : Option FilesInfo × Option Error :=
  match os.Glob s pattern with
  | .error err => (none, some err)
  | .ok paths => (some (Find.loop os s paths []), none)

/-! ## Sorting -/

/-- Go `FilesInfo.Len`. -/
def FilesInfo.Len (f : FilesInfo) : Nat := f.length

/-- Go `FilesInfo.Swap`: `f[i], f[j] = f[j], f[i]`; an index out of range
panics, here `none`. -/
def FilesInfo.Swap (f : FilesInfo) (i j : Nat) : Option FilesInfo :=
  match f[i]?, f[j]? with
  | some a, some b => some ((f.set i b).set j a)
  | _, _ => none

/-- Go `ByName.Less`; an index out of range panics, here `none`.  Go orders
strings byte by byte, which on UTF-8 text is the order of the code points,
the order of `String`. -/
def ByName.Less (f : FilesInfo) (i j : Nat) : Option Bool :=
  match f[i]?, f[j]? with
  | some a, some b => some (decide (a.Name < b.Name))
  | _, _ => none

/-- Go `BySize.Less`. -/
def BySize.Less (f : FilesInfo) (i j : Nat) : Option Bool :=
  match f[i]?, f[j]? with
  | some a, some b => some (decide (a.Size < b.Size))
  | _, _ => none

/-- Go `ByModTime.Less`. -/
def ByModTime.Less (f : FilesInfo) (i j : Nat) : Option Bool :=
  match f[i]?, f[j]? with
  | some a, some b => some (a.ModTime.Before b.ModTime)
  | _, _ => none

/-- Go `sort.Interface` over a `FilesInfo`: the three methods `sort.Sort`
calls. -/
structure Interface where
  Len : FilesInfo → Nat
  Less : FilesInfo → Nat → Nat → Option Bool
  Swap : FilesInfo → Nat → Nat → Option FilesInfo

/-- Go `ByName`: `Len` and `Swap` of the embedded `FilesInfo`, and its own
`Less`. -/
def ByName : Interface := ⟨FilesInfo.Len, ByName.Less, FilesInfo.Swap⟩

/-- Go `BySize`. -/
def BySize : Interface := ⟨FilesInfo.Len, BySize.Less, FilesInfo.Swap⟩

/-- Go `ByModTime`. -/
def ByModTime : Interface := ⟨FilesInfo.Len, ByModTime.Less, FilesInfo.Swap⟩

/-- Go `sort.Reverse`: the same data with `Less(i, j)` answering
`Less(j, i)`. -/
def Reverse (data : Interface) : Interface :=
  { data with Less := fun f i j => data.Less f j i }

/-- Go `sort.Sort` as the package sees it.  The procedure belongs to the
standard library, not to the package, and the package fixes no version of
it (the library has changed its algorithm between releases, and with it the
order in which equal keys come out): it is a parameter of the six operations
below, given the interface and, through it alone, the slice.  A panic is
`none`. -/
abbrev Sorter := Interface → FilesInfo → Option FilesInfo

/-- Go `FilesInfo.SortByName`: `sort.Sort(ByName{fis})`. -/
def FilesInfo.SortByName (sort : Sorter) (fis : FilesInfo) : Option FilesInfo :=
  sort ByName fis

/-- Go `FilesInfo.SortBySize`: `sort.Sort(BySize{fis})`. -/
def FilesInfo.SortBySize (sort : Sorter) (fis : FilesInfo) : Option FilesInfo :=
  sort BySize fis

/-- Go `FilesInfo.SortByModTime`: `sort.Sort(ByModTime{fis})`. -/
def FilesInfo.SortByModTime (sort : Sorter) (fis : FilesInfo) : Option FilesInfo :=
  sort ByModTime fis

/-- Go `FilesInfo.SortByNameReverse`: `sort.Sort(sort.Reverse(ByName{fis}))`. -/
def FilesInfo.SortByNameReverse (sort : Sorter) (fis : FilesInfo) : Option FilesInfo :=
  sort (Reverse ByName) fis

/-- Go `FilesInfo.SortBySizeReverse`: `sort.Sort(sort.Reverse(BySize{fis}))`. -/
def FilesInfo.SortBySizeReverse (sort : Sorter) (fis : FilesInfo) : Option FilesInfo :=
  sort (Reverse BySize) fis

/-- Go `FilesInfo.SortByModTimeReverse`:
`sort.Sort(sort.Reverse(ByModTime{fis}))`. -/
def FilesInfo.SortByModTimeReverse (sort : Sorter) (fis : FilesInfo) : Option FilesInfo :=
  sort (Reverse ByModTime) fis

/-! ### What the library promises of `sort.Sort`

The documentation of package `sort` asks three things of an interface and
promises one of `Sort`.  `Len` is the number of elements; `Swap` swaps the
elements with indexes `i` and `j`; `Less` reports whether the element with
index `i` must sort before the element with index `j`, and must describe a
transitive ordering.  `Sort` then sorts the data in ascending order as
determined by `Less`, by calls to `Len`, `Less` and `Swap`. -/

/-- What package `sort` asks of an interface, for data held in a slice:
`Len` is the length, `Less` compares the two elements with `lt`, `Swap`
exchanges the two elements and leaves the others, and `lt` is a transitive
ordering (also of the pairs it denies) in which nothing sorts before
itself. -/
structure SliceLike (data : Interface) (lt : FileInfo → FileInfo → Bool) : Prop where
  len : ∀ f : FilesInfo, data.Len f = f.length
  less : ∀ (f : FilesInfo) (i j : Nat) (a b : FileInfo),
    f[i]? = some a → f[j]? = some b → data.Less f i j = some (lt a b)
  swap : ∀ (f : FilesInfo) (i j : Nat), i < f.length → j < f.length →
    ∃ g : FilesInfo, data.Swap f i j = some g ∧ g.length = f.length ∧
      g[i]? = f[j]? ∧ g[j]? = f[i]? ∧ ∀ k, k ≠ i → k ≠ j → g[k]? = f[k]?
  irrefl : ∀ a, lt a a = false
  trans : ∀ a b c, lt a b = true → lt b c = true → lt a c = true
  negtrans : ∀ a b c, lt a b = false → lt b c = false → lt a c = false

/-- The slice after the given calls of `Swap`, made in turn. -/
def runSwaps (data : Interface) : FilesInfo → List (Nat × Nat) → Option FilesInfo
  | f, [] => some f
  | f, (i, j) :: rest =>
    match data.Swap f i j with
    | none => none
    | some g => runSwaps data g rest

/-- What package `sort` promises of `Sort`: on an interface that meets what
is asked of it, `Sort` returns, the slice it leaves is reached from the one
it was given by calls of `Swap`, and in it `Less(j, i)` is false for every
`i < j` below `Len`. -/
def SortContract (sort : Sorter) : Prop :=
  ∀ (data : Interface) (lt : FileInfo → FileInfo → Bool), SliceLike data lt →
    ∀ f : FilesInfo, ∃ (swaps : List (Nat × Nat)) (g : FilesInfo),
      sort data f = some g ∧ runSwaps data f swaps = some g ∧
      ∀ i j, i < j → j < data.Len g → data.Less g j i = some false

/-! ### A sorter: the library's insertion sort

`insertionSort` is the routine of package `sort` in which `Sort` ends on
short slices.  Run over the whole slice it is one procedure that keeps the
promise above, whatever the length. -/

/-- The inner loop of Go `insertionSort` in package `sort`:
`for j := i; j > a && data.Less(j, j-1); j-- { data.Swap(j, j-1) }`, with
`a = 0`. -/
def insertionSort.inner (data : Interface) (f : FilesInfo) : Nat → Option FilesInfo
  | 0 => some f
  | j + 1 =>
    match data.Less f (j + 1) j with
    | none => none
    | some false => some f
    | some true =>
      match data.Swap f (j + 1) j with
      | none => none
      | some g => insertionSort.inner data g j

/-- The outer loop of Go `insertionSort`: `for i := a + 1; i < b; i++`, run
for the `count` values of `i` from the given one on. -/
def insertionSort.outer (data : Interface) (f : FilesInfo) (i : Nat) : Nat → Option FilesInfo
  | 0 => some f
  | count + 1 =>
    match insertionSort.inner data f i with
    | none => none
    | some g => insertionSort.outer data g (i + 1) count

/-- Go `insertionSort(data, a, b)` of package `sort`, for `a = 0`. -/
def insertionSort (data : Interface) (f : FilesInfo) (b : Nat) : Option FilesInfo :=
  insertionSort.outer data f 1 (b - 1)

/-- The sorter that runs `insertionSort` over the whole slice. -/
def insertionSorter : Sorter := fun data f => insertionSort data f (data.Len f)

/-- What the inner loop computes: `x` stands right after the elements `lr`
(nearest first) and before `r`; it moves left over each element it is less
than. -/
def insertBack (lt : FileInfo → FileInfo → Bool) (x : FileInfo) :
    List FileInfo → List FileInfo → List FileInfo
  | [], r => x :: r
  | y :: lr, r => if lt x y then insertBack lt x lr (y :: r) else (y :: lr).reverse ++ x :: r

/-! ### The comparisons of the three interfaces -/

/-- The comparison of `ByName.Less`. -/
def ltName (a b : FileInfo) : Bool := decide (a.Name < b.Name)

/-- The comparison of `BySize.Less`. -/
def ltSize (a b : FileInfo) : Bool := decide (a.Size < b.Size)

/-- The comparison of `ByModTime.Less`. -/
def ltModTime (a b : FileInfo) : Bool := a.ModTime.Before b.ModTime

/-- A listing of five entries, two of them with the same name and two with
the same size and time. -/
def sampleListing : FilesInfo :=
  [⟨"b.txt", 2, 0o600, ⟨1300000000, 0⟩, 1, 2⟩,
   ⟨"a.txt", 5, 0o644, ⟨1400000000, 5⟩, 1, 1⟩,
   ⟨"dir", 0, ModeDir ||| 0o755, ⟨1200000000, 0⟩, 1, 3⟩,
   ⟨"a.txt", 7, 0o644, ⟨1400000000, 4⟩, 2, 9⟩,
   ⟨"a.lnk", 5, 0o644, ⟨1400000000, 5⟩, 1, 1⟩]

/-! ## Recording the calls of a run -/

/-- A call into the platform that can change the file system. -/
inductive Call where
  | Link (oldname newname : String)
  | Open (name : String)
  | Create (name : String)
  | Stream (dst src : Nat)
  | Sync (file : Nat)
  | Close (file : Nat)
  deriving DecidableEq

/-- The platform `os` with a log: every call that can change the file system
does what it does in `os` and is appended to the log. -/
def traced (os : OS σ) : OS (σ × List Call) where
  Stat := fun s name => os.Stat s.1 name
  Link := fun s o n => ((os.Link s.1 o n).1, ((os.Link s.1 o n).2, s.2 ++ [Call.Link o n]))
  Open := fun s name => ((os.Open s.1 name).1, ((os.Open s.1 name).2, s.2 ++ [Call.Open name]))
  Create := fun s name =>
    ((os.Create s.1 name).1, ((os.Create s.1 name).2, s.2 ++ [Call.Create name]))
  Stream := fun s d r =>
    ((os.Stream s.1 d r).1, ((os.Stream s.1 d r).2, s.2 ++ [Call.Stream d r]))
  Sync := fun s f => ((os.Sync s.1 f).1, ((os.Sync s.1 f).2, s.2 ++ [Call.Sync f]))
  Close := fun s f => (os.Close s.1 f, s.2 ++ [Call.Close f])
  Glob := fun s pattern => os.Glob s.1 pattern
  ReadFile := fun s name => os.ReadFile s.1 name

/-! ## A small file system in memory

One directory on one device: names, the inodes they point to, and the open
descriptors.  It is the concrete platform on which the functions above are
run. -/

/-- An inode: its number, mode, bytes and modification time. -/
structure Node where
  ino : Nat
  Mode : Nat
  data : List Nat
  ModTime : Time
  deriving DecidableEq

/-- The state of the file system in memory. -/
structure MemFS where
  /-- Directory entries: each name with its inode number. -/
  entries : List (String × Nat)
  nodes : List Node
  /-- Open descriptors: each with its inode number. -/
  fds : List (Nat × Nat)
  /-- Names whose lookup the platform refuses. -/
  denied : List String
  /-- Whether the volume lets hard links be made. -/
  linkable : Bool
  deriving DecidableEq

/-- The inode with the given number. -/
def MemFS.node (fs : MemFS) (ino : Nat) : Option Node :=
  fs.nodes.find? (fun n => n.ino == ino)

/-- The inode a name points to. -/
def MemFS.resolve (fs : MemFS) (name : String) : Option Node :=
  match fs.entries.lookup name with
  | none => none
  | some ino => fs.node ino

/-- Replace the bytes of the inode with the given number. -/
def MemFS.setData (fs : MemFS) (ino : Nat) (data : List Nat) : MemFS :=
  { fs with nodes := fs.nodes.map (fun n => if n.ino == ino then { n with data := data } else n) }

/-- A descriptor number not in use. -/
def MemFS.freshFd (fs : MemFS) : Nat := (fs.fds.map Prod.fst).foldl max 2 + 1

/-- An inode number not in use. -/
def MemFS.freshIno (fs : MemFS) : Nat := (fs.nodes.map Node.ino).foldl max 0 + 1

/-- The file system in memory as a platform. -/
def memOS : OS MemFS where
  Stat := fun fs name =>
    if fs.denied.contains name then .error .ErrPermission
    else match fs.resolve name with
      | none => .error .ErrNotExist
      | some n => .ok ⟨name, n.data.length, n.Mode, n.ModTime, 1, n.ino⟩
  Link := fun fs oldname newname =>
    if !fs.linkable then (some (.Errno 18), fs)
    else match fs.resolve oldname, fs.resolve newname with
      | none, _ => (some .ErrNotExist, fs)
      | some _, some _ => (some .ErrExist, fs)
      | some n, none =>
        if FileMode.IsRegular n.Mode then
          (none, { fs with entries := fs.entries ++ [(newname, n.ino)] })
        else (some .ErrPermission, fs)
  Open := fun fs name =>
    match fs.resolve name with
    | none => (.error .ErrNotExist, fs)
    | some n => (.ok fs.freshFd, { fs with fds := fs.fds ++ [(fs.freshFd, n.ino)] })
  Create := fun fs name =>
    match fs.resolve name with
    | some n =>
      if FileMode.IsRegular n.Mode then
        (.ok fs.freshFd,
          { (fs.setData n.ino []) with fds := fs.fds ++ [(fs.freshFd, n.ino)] })
      else (.error (.Errno 21), fs)
    | none =>
      (.ok fs.freshFd,
        { fs with
          entries := fs.entries ++ [(name, fs.freshIno)]
          nodes := fs.nodes ++ [⟨fs.freshIno, 0o644, [], ⟨0, 0⟩⟩]
          fds := fs.fds ++ [(fs.freshFd, fs.freshIno)] })
  Stream := fun fs dst src =>
    match fs.fds.lookup dst, fs.fds.lookup src with
    | some d, some r =>
      match fs.node d, fs.node r with
      | some dn, some rn =>
        ((rn.data.length, none), fs.setData d (dn.data ++ rn.data))
      | _, _ => ((0, some .ErrInvalid), fs)
    | _, _ => ((0, some .ErrInvalid), fs)
  Sync := fun fs f =>
    match fs.fds.lookup f with
    | some _ => (none, fs)
    | none => (some .ErrInvalid, fs)
  Close := fun fs f => { fs with fds := fs.fds.filter (fun p => p.1 != f) }
  Glob := fun fs pattern =>
    if pattern = "[" then .error .ErrBadPattern
    else if pattern = "*" then .ok (fs.entries.map Prod.fst)
    else .ok ((fs.entries.map Prod.fst).filter (fun name => name == pattern))
  ReadFile := fun fs name =>
    match fs.resolve name with
    | none => .error .ErrNotExist
    | some n => if FileMode.IsRegular n.Mode then .ok n.data else .error (.Errno 21)

/-- A file system holding the regular file `a.txt` with the five bytes of
`hello`, a second name `a.lnk` for the same inode, the regular file `b.txt`
with the two bytes of `hi`, the directory `dir`, and an entry `locked` whose
lookup is refused.  Hard links can be made. -/
def sampleFS : MemFS where
  entries := [("a.txt", 1), ("a.lnk", 1), ("b.txt", 2), ("dir", 3), ("locked", 4)]
  nodes :=
    [⟨1, 0o644, [104, 101, 108, 108, 111], ⟨1400000000, 5⟩⟩,
     ⟨2, 0o600, [104, 105], ⟨1300000000, 0⟩⟩,
     ⟨3, ModeDir ||| 0o755, [], ⟨1200000000, 0⟩⟩,
     ⟨4, 0o000, [1], ⟨1100000000, 0⟩⟩]
  fds := []
  denied := ["locked"]
  linkable := true

/-- The same file system on a volume where no hard link can be made. -/
def sampleFSNoLink : MemFS := { sampleFS with linkable := false }

/-- The file system in memory with a stream step that hands over at most
`limit` bytes and still reports no error: the outcome of `io.Copy` that the
short-write rule is about. -/
def lossyOS (limit : Nat) : OS MemFS :=
  { memOS with
    Stream := fun fs dst src =>
      match fs.fds.lookup dst, fs.fds.lookup src with
      | some d, some r =>
        match fs.node d, fs.node r with
        | some dn, some rn =>
          (((rn.data.take limit).length, none), fs.setData d (dn.data ++ rn.data.take limit))
        | _, _ => ((0, some .ErrInvalid), fs)
      | _, _ => ((0, some .ErrInvalid), fs) }

/-- The platform `os` with the byte count its stream step reports replaced by
`f` of it; nothing else differs. -/
def withCount (os : OS σ) (f : Int → Int) : OS σ :=
  { os with
    Stream := fun s dst src =>
      ((f (os.Stream s dst src).1.1, (os.Stream s dst src).1.2), (os.Stream s dst src).2) }

/-! ## Theorems: existence and metadata accessors -/

/-- C8: `Exists` answers `false` exactly when the lookup fails with a
not-found error, and then returns that error; after a successful lookup, or
one that fails with any other error, it answers `true` with a nil error.  So
it is `true` for every file whose lookup succeeds (regular files among
them) and `false` for every path whose lookup reports not-found. -/
theorem Exists_spec (os : OS σ) (s : σ) (filename : String) :
    ((Exists os s filename).1 = false ↔
        ∃ err, os.Stat s filename = .error err ∧ IsNotExist err = true) ∧
    (∀ err, os.Stat s filename = .error err → IsNotExist err = true →
        Exists os s filename = (false, some err)) ∧
    (∀ err, os.Stat s filename = .error err → IsNotExist err = false →
        Exists os s filename = (true, none)) ∧
    (∀ fi, os.Stat s filename = .ok fi → Exists os s filename = (true, none)) ∧
    (os.Stat s filename = .error .ErrNotExist → (Exists os s filename).1 = false) := by
  unfold Exists GetFileInfo
  cases h : os.Stat s filename with
  | error e =>
    cases he : IsNotExist e <;> simp [he]
    intro h2
    simp [h2, IsNotExist] at he
  | ok fi => simp

/-- `Exists` on the file system in memory: a regular file, a directory and
an entry whose lookup is refused all exist, a missing name does not. -/
theorem Exists_spec_witness :
    Exists memOS sampleFS "a.txt" = (true, none) ∧
    Exists memOS sampleFS "locked" = (true, none) ∧
    Exists memOS sampleFS "dummy.dummy" = (false, some .ErrNotExist) :=
  ⟨(Exists_spec memOS sampleFS "a.txt").2.2.2.1 _ rfl,
   (Exists_spec memOS sampleFS "locked").2.2.1 .ErrPermission rfl rfl,
   (Exists_spec memOS sampleFS "dummy.dummy").2.1 .ErrNotExist rfl rfl⟩

/-- C9: when the lookup fails, with whatever error, `Size` returns -1,
`ModTime` the epoch `time.Unix(0, 0)`, `ModTimeUnix` and `ModTimeUnixNano` -1,
`Mode` and `Perm` 0, each with the lookup error; when it succeeds each
returns the field of the metadata (size, modification time, its Unix seconds
and nanoseconds, mode, permission bits of the mode) with a nil error. -/
theorem accessors_spec (os : OS σ) (s : σ) (filename : String) :
    (∀ err, os.Stat s filename = .error err →
        Size os s filename = (-1, some err) ∧
        ModTime os s filename = (Time.ofUnix 0 0, some err) ∧
        ModTimeUnix os s filename = (-1, some err) ∧
        ModTimeUnixNano os s filename = (-1, some err) ∧
        Mode os s filename = (0, some err) ∧
        Perm os s filename = (0, some err)) ∧
    (∀ fi, os.Stat s filename = .ok fi →
        Size os s filename = (fi.Size, none) ∧
        ModTime os s filename = (fi.ModTime, none) ∧
        ModTimeUnix os s filename = (fi.ModTime.Unix, none) ∧
        ModTimeUnixNano os s filename = (fi.ModTime.UnixNano, none) ∧
        Mode os s filename = (fi.Mode, none) ∧
        Perm os s filename = (fi.Mode &&& 0o777, none)) := by
  unfold Size ModTimeUnix ModTimeUnixNano ModTime Mode Perm GetFileInfo
  constructor
  · intro err h
    simp [h]
  · intro fi h
    simp [h, FileMode.Perm, ModePerm]

/-- The accessors on the file system in memory: the sentinels for a missing
name and for a refused lookup, the metadata of `a.txt`. -/
theorem accessors_spec_witness :
    (Size memOS sampleFS "dummy.dummy" = (-1, some .ErrNotExist) ∧
      ModTime memOS sampleFS "dummy.dummy" = (⟨0, 0⟩, some .ErrNotExist) ∧
      ModTimeUnix memOS sampleFS "locked" = (-1, some .ErrPermission)) ∧
    (Size memOS sampleFS "a.txt" = (5, none) ∧
      ModTimeUnix memOS sampleFS "a.txt" = (1400000000, none) ∧
      ModTimeUnixNano memOS sampleFS "a.txt" = (1400000000000000005, none) ∧
      Perm memOS sampleFS "dir" = (0o755, none)) :=
  ⟨⟨((accessors_spec memOS sampleFS "dummy.dummy").1 .ErrNotExist rfl).1,
    ((accessors_spec memOS sampleFS "dummy.dummy").1 .ErrNotExist rfl).2.1,
    ((accessors_spec memOS sampleFS "locked").1 .ErrPermission rfl).2.2.1⟩,
   ⟨((accessors_spec memOS sampleFS "a.txt").2 _ rfl).1,
    ((accessors_spec memOS sampleFS "a.txt").2 _ rfl).2.2.1,
    ((accessors_spec memOS sampleFS "a.txt").2 _ rfl).2.2.2.1,
    ((accessors_spec memOS sampleFS "dir").2 _ rfl).2.2.2.2.2⟩⟩

/-! ## Theorems: Find -/

/-- The loop of `Find` appends to `files` the metadata of the paths whose
lookup succeeds, in the order of the paths. -/
theorem Find.loop_eq (os : OS σ) (s : σ) (paths : List String) (files : FilesInfo) :
    Find.loop os s paths files
      = files ++ paths.filterMap (fun f => (os.Stat s f).toOption) := by
  induction paths generalizing files with
  | nil => simp [Find.loop]
  | cons f rest ih =>
    unfold Find.loop GetFileInfo
    cases h : os.Stat s f with
    | error e => simp [ih, h, Except.toOption]
    | ok fi => simp [ih, h, Except.toOption]

/-- C10: `Find` returns an error exactly when the glob step rejects the
pattern, and then the listing is nil; otherwise the error is nil and the
listing holds, in glob order, the metadata of exactly the matched paths whose
lookup succeeds, so it is never longer than the list of matches and is the
empty (not nil) listing when nothing matched. -/
theorem Find_spec (os : OS σ) (s : σ) (pattern : String) :
    ((Find os s pattern).2 ≠ none ↔ ∃ err, os.Glob s pattern = .error err) ∧
    (∀ err, os.Glob s pattern = .error err → Find os s pattern = (none, some err)) ∧
    (∀ paths, os.Glob s pattern = .ok paths →
        Find os s pattern
          = (some (paths.filterMap (fun f => (os.Stat s f).toOption)), none) ∧
        (paths.filterMap (fun f => (os.Stat s f).toOption)).length ≤ paths.length ∧
        (paths = [] → Find os s pattern = (some [], none))) := by
  unfold Find
  cases h : os.Glob s pattern with
  | error e => simp
  | ok paths =>
    simp only [Find.loop_eq, List.nil_append]
    refine ⟨by simp, by simp, ?_⟩
    intro p hp
    cases hp
    refine ⟨rfl, List.length_filterMap_le _ _, ?_⟩
    intro hnil
    simp [hnil]

/-- `Find` on the file system in memory: `*` matches the five entries and the
one whose lookup is refused is dropped; a malformed pattern gives the glob
error and a nil listing; a pattern that matches nothing gives the empty
listing. -/
theorem Find_spec_witness :
    (Find memOS sampleFS "*").2 = none ∧
    ((Find memOS sampleFS "*").1.map (fun l => l.map FileInfo.Name))
      = some ["a.txt", "a.lnk", "b.txt", "dir"] ∧
    Find memOS sampleFS "[" = (none, some .ErrBadPattern) ∧
    Find memOS sampleFS "zzz" = (some [], none) :=
  ⟨by rw [((Find_spec memOS sampleFS "*").2.2 _ rfl).1],
   by rw [((Find_spec memOS sampleFS "*").2.2 _ rfl).1]; decide,
   (Find_spec memOS sampleFS "[").2.1 _ rfl,
   ((Find_spec memOS sampleFS "zzz").2.2 [] rfl).2.2 rfl⟩

/-! ## Theorems: Copy -/

/-- When the source is looked up and is not a regular file, `Copy` returns a
nil error and leaves the file system as it was. -/
theorem Copy_of_source_not_regular (os : OS σ) (s : σ) (source dest : String)
    (sfi : FileInfo) (hs : os.Stat s source = .ok sfi)
    (hreg : FileMode.IsRegular sfi.Mode = false) :
    Copy os s source dest = (none, s) := by
  simp [Copy, GetFileInfo, hs, hreg]

/-- When the source is a regular file and the destination is looked up and is
not a regular file, `Copy` returns a nil error and leaves the file system as
it was. -/
theorem Copy_of_dest_not_regular (os : OS σ) (s : σ) (source dest : String)
    (sfi dfi : FileInfo) (hs : os.Stat s source = .ok sfi)
    (hreg : FileMode.IsRegular sfi.Mode = true)
    (hd : os.Stat s dest = .ok dfi) (hdreg : FileMode.IsRegular dfi.Mode = false) :
    Copy os s source dest = (none, s) := by
  simp [Copy, GetFileInfo, hs, hreg, hd, hdreg]

/-- When source and destination pass the checks (regular source; destination
absent, or a regular file other than the source), `Copy` is the transfer. -/
theorem Copy_eq_transfer (os : OS σ) (s : σ) (source dest : String) (sfi : FileInfo)
    (hs : os.Stat s source = .ok sfi) (hreg : FileMode.IsRegular sfi.Mode = true)
    (hd : (∃ err, os.Stat s dest = .error err ∧ IsNotExist err = true) ∨
      (∃ dfi, os.Stat s dest = .ok dfi ∧ FileMode.IsRegular dfi.Mode = true ∧
        SameFile sfi dfi = false)) :
    Copy os s source dest = Copy.transfer os s source dest := by
  rcases hd with ⟨err, he, hne⟩ | ⟨dfi, hd, hdreg, hdiff⟩
  · simp [Copy, GetFileInfo, hs, hreg, he, hne]
  · simp [Copy, GetFileInfo, hs, hreg, hd, hdreg, hdiff]

/-- C1 (the code at the failing input): copying the directory `dir` to the
missing name `c.txt` returns a nil error and changes nothing, and reading
`c.txt` afterwards fails because it does not exist. -/
theorem Copy_directory_then_Read_fails :
    Copy memOS sampleFS "dir" "c.txt" = (none, sampleFS) ∧
    Read memOS (Copy memOS sampleFS "dir" "c.txt").2 "c.txt" = .error .ErrNotExist :=
  ⟨by decide, rfl⟩

/-- C2 (the code at the failing input): `dir` is looked up and is a
directory, and copying it onto `b.txt` returns a nil error, the file system
unchanged. -/
theorem Copy_directory_source_returns_nil :
    (∃ sfi, memOS.Stat sampleFS "dir" = .ok sfi ∧ FileMode.IsRegular sfi.Mode = false) ∧
    Copy memOS sampleFS "dir" "b.txt" = (none, sampleFS) :=
  ⟨⟨_, rfl, by decide⟩, by decide⟩

/-- C3 (the code at the failing input): `a.txt` is a regular file, `dir` is
looked up and is a directory, and copying `a.txt` onto `dir` returns a nil
error, the file system unchanged. -/
theorem Copy_directory_dest_returns_nil :
    (∃ sfi, memOS.Stat sampleFS "a.txt" = .ok sfi ∧ FileMode.IsRegular sfi.Mode = true) ∧
    (∃ dfi, memOS.Stat sampleFS "dir" = .ok dfi ∧ FileMode.IsRegular dfi.Mode = false) ∧
    Copy memOS sampleFS "a.txt" "dir" = (none, sampleFS) :=
  ⟨⟨_, rfl, by decide⟩, ⟨_, rfl, by decide⟩, by decide⟩

/-- C4: when the source is a regular file and the destination is looked up
and is the same file, `Copy` returns a nil error with the file system
unchanged, it makes no link, open, create, stream, sync or close call (the
log of the traced platform stays empty), and a second call gives the same
result. -/
theorem Copy_same_file (os : OS σ) (s : σ) (source dest : String) (sfi dfi : FileInfo)
    (hs : os.Stat s source = .ok sfi) (hreg : FileMode.IsRegular sfi.Mode = true)
    (hd : os.Stat s dest = .ok dfi) (hsame : SameFile sfi dfi = true) :
    Copy os s source dest = (none, s) ∧
    Copy (traced os) (s, []) source dest = (none, (s, [])) ∧
    Copy os (Copy os s source dest).2 source dest = Copy os s source dest := by
  have h1 : Copy os s source dest = (none, s) := by
    simp [Copy, GetFileInfo, hs, hreg, hd, hsame]
  refine ⟨h1, ?_, ?_⟩
  · simp [Copy, GetFileInfo, traced, hs, hreg, hd, hsame]
  · rw [h1]
    exact h1

/-- Copying `a.txt` onto its second name `a.lnk` in the file system in
memory. -/
theorem Copy_same_file_witness :
    (memOS.Stat sampleFS "a.txt" = .ok ⟨"a.txt", 5, 0o644, ⟨1400000000, 5⟩, 1, 1⟩ ∧
      FileMode.IsRegular 0o644 = true ∧
      memOS.Stat sampleFS "a.lnk" = .ok ⟨"a.lnk", 5, 0o644, ⟨1400000000, 5⟩, 1, 1⟩ ∧
      SameFile ⟨"a.txt", 5, 0o644, ⟨1400000000, 5⟩, 1, 1⟩
        ⟨"a.lnk", 5, 0o644, ⟨1400000000, 5⟩, 1, 1⟩ = true) ∧
    (Copy memOS sampleFS "a.txt" "a.lnk" = (none, sampleFS) ∧
      Copy (traced memOS) (sampleFS, []) "a.txt" "a.lnk" = (none, (sampleFS, [])) ∧
      Copy memOS (Copy memOS sampleFS "a.txt" "a.lnk").2 "a.txt" "a.lnk"
        = Copy memOS sampleFS "a.txt" "a.lnk") :=
  ⟨⟨rfl, by decide, rfl, by decide⟩,
   Copy_same_file memOS sampleFS "a.txt" "a.lnk" _ _ rfl (by decide) rfl (by decide)⟩

/-- C6: for a regular source and a destination that is absent or another
regular file, `Copy` is decided by the steps in turn.  If the hard link
succeeds `Copy` returns nil and has made that one call only.  If the hard
link fails its error is not returned: `Copy` returns the error of the first
of open, create, stream and sync that fails (a failed sync fails the copy
although the stream succeeded), and nil exactly when all four succeed. -/
theorem Copy_link_then_stream (os : OS σ) (s : σ) (source dest : String) (sfi : FileInfo)
    (hs : os.Stat s source = .ok sfi) (hreg : FileMode.IsRegular sfi.Mode = true)
    (hd : (∃ err, os.Stat s dest = .error err ∧ IsNotExist err = true) ∨
      (∃ dfi, os.Stat s dest = .ok dfi ∧ FileMode.IsRegular dfi.Mode = true ∧
        SameFile sfi dfi = false)) :
    (∀ s1, os.Link s source dest = (none, s1) →
      Copy os s source dest = (none, s1) ∧
      Copy (traced os) (s, []) source dest = (none, (s1, [Call.Link source dest]))) ∧
    (∀ e s1, os.Link s source dest = (some e, s1) →
      (∀ e1 s2, os.Open s1 source = (.error e1, s2) →
        (Copy os s source dest).1 = some e1) ∧
      (∀ fin s2, os.Open s1 source = (.ok fin, s2) →
        (∀ e2 s3, os.Create s2 dest = (.error e2, s3) →
          (Copy os s source dest).1 = some e2) ∧
        (∀ fout s3, os.Create s2 dest = (.ok fout, s3) →
          (∀ n e3 s4, os.Stream s3 fout fin = ((n, some e3), s4) →
            (Copy os s source dest).1 = some e3) ∧
          (∀ n s4, os.Stream s3 fout fin = ((n, none), s4) →
            (Copy os s source dest).1 = (os.Sync s4 fout).1))) ∧
      ((Copy os s source dest).1 = none ↔
        ∃ fin s2 fout s3 n s4, os.Open s1 source = (.ok fin, s2) ∧
          os.Create s2 dest = (.ok fout, s3) ∧
          os.Stream s3 fout fin = ((n, none), s4) ∧ (os.Sync s4 fout).1 = none)) := by
  have ht : Copy (traced os) (s, []) source dest
      = Copy.transfer (traced os) (s, []) source dest :=
    Copy_eq_transfer (traced os) (s, []) source dest sfi hs hreg hd
  rw [Copy_eq_transfer os s source dest sfi hs hreg hd, ht]
  unfold Copy.transfer
  refine ⟨?_, ?_⟩
  · intro s1 hl
    simp [traced, hl]
  · intro e s1 hl
    simp only [hl]
    refine ⟨?_, ?_, ?_⟩
    · intro e1 s2 hO
      simp [hO]
    · intro fin s2 hO
      simp only [hO]
      refine ⟨?_, ?_⟩
      · intro e2 s3 hC
        simp [hC]
      · intro fout s3 hC
        simp only [hC]
        refine ⟨?_, ?_⟩
        · intro n e3 s4 hS
          simp [hS]
        · intro n s4 hS
          simp [hS]
    · rcases hO : os.Open s1 source with ⟨e1 | fin, s2⟩
      · simp
      · rcases hC : os.Create s2 dest with ⟨e2 | fout, s3⟩
        · simp [hC]
        · rcases hS : os.Stream s3 fout fin with ⟨⟨n, _ | e3⟩, s4⟩
          · simp only [hC, hS]
            constructor
            · intro h
              exact ⟨fin, s2, fout, s3, n, s4, rfl, hC, hS, h⟩
            · rintro ⟨fin1, s21, fout1, s31, n1, s41, h1, h2, h3, h4⟩
              cases h1
              rw [hC] at h2
              cases h2
              rw [hS] at h3
              cases h3
              exact h4
          · simp [hC, hS]

/-- Copying `a.txt` to the missing name `c.txt` in memory: where hard links
can be made the link is the only call; where they cannot, the link error is
dropped and the four steps of the streamed copy all succeed. -/
theorem Copy_link_then_stream_witness :
    (memOS.Stat sampleFS "a.txt" = .ok ⟨"a.txt", 5, 0o644, ⟨1400000000, 5⟩, 1, 1⟩ ∧
      FileMode.IsRegular 0o644 = true ∧
      memOS.Stat sampleFS "c.txt" = .error .ErrNotExist ∧
      IsNotExist .ErrNotExist = true) ∧
    Copy (traced memOS) (sampleFS, []) "a.txt" "c.txt"
      = (none, ({ sampleFS with entries := sampleFS.entries ++ [("c.txt", 1)] },
          [Call.Link "a.txt" "c.txt"])) ∧
    memOS.Link sampleFSNoLink "a.txt" "c.txt" = (some (.Errno 18), sampleFSNoLink) ∧
    (Copy memOS sampleFSNoLink "a.txt" "c.txt").1 = none :=
  ⟨⟨rfl, by decide, rfl, rfl⟩,
   ((Copy_link_then_stream memOS sampleFS "a.txt" "c.txt" _ rfl (by decide)
      (Or.inl ⟨_, rfl, rfl⟩)).1 _ rfl).2,
   rfl,
   ((Copy_link_then_stream memOS sampleFSNoLink "a.txt" "c.txt" _ rfl (by decide)
      (Or.inl ⟨_, rfl, rfl⟩)).2 _ _ rfl).2.2.mpr
      ⟨_, _, _, _, _, _, rfl, rfl, rfl, rfl⟩⟩

/-- C5 as stated fails: on a platform whose stream step hands over 2 of the 5
bytes of `a.txt` and reports no error, on the streaming path of
`Copy("a.txt", "c.txt")`, the rule that `Copy` then returns a short-write
error does not hold. -/
theorem Copy_short_write_not_detected :
    ¬ (∀ (e : Error) (s1 : MemFS) (fin : Nat) (s2 : MemFS) (fout : Nat) (s3 : MemFS)
        (n : Int) (s4 : MemFS) (bytes : List Nat),
        (lossyOS 2).Link sampleFSNoLink "a.txt" "c.txt" = (some e, s1) →
        (lossyOS 2).Open s1 "a.txt" = (.ok fin, s2) →
        (lossyOS 2).Create s2 "c.txt" = (.ok fout, s3) →
        (lossyOS 2).Stream s3 fout fin = ((n, none), s4) →
        (lossyOS 2).ReadFile sampleFSNoLink "a.txt" = .ok bytes →
        n < bytes.length →
        (Copy (lossyOS 2) sampleFSNoLink "a.txt" "c.txt").1 = some .ErrShortWrite) := by
  intro h
  have h2 := h _ _ _ _ _ _ _ _ _ rfl rfl rfl rfl rfl (by decide)
  revert h2
  decide

/-- C5 as amended: on the streaming path `Copy` returns the error the stream
step reports, and when that step reports none it returns what the sync
returns, whatever the byte count; replacing the count the stream step
reports by any other value changes nothing in what `Copy` returns. -/
theorem Copy_stream_count_unused (os : OS σ) (s : σ) (source dest : String) (sfi : FileInfo)
    (e : Error) (s1 : σ) (fin : Nat) (s2 : σ) (fout : Nat) (s3 : σ)
    (n : Int) (err : Option Error) (s4 : σ)
    (hs : os.Stat s source = .ok sfi) (hreg : FileMode.IsRegular sfi.Mode = true)
    (hd : (∃ err, os.Stat s dest = .error err ∧ IsNotExist err = true) ∨
      (∃ dfi, os.Stat s dest = .ok dfi ∧ FileMode.IsRegular dfi.Mode = true ∧
        SameFile sfi dfi = false))
    (hl : os.Link s source dest = (some e, s1))
    (ho : os.Open s1 source = (.ok fin, s2))
    (hc : os.Create s2 dest = (.ok fout, s3))
    (hst : os.Stream s3 fout fin = ((n, err), s4)) :
    (Copy os s source dest).1
      = (match err with
        | some e3 => some e3
        | none => (os.Sync s4 fout).1) ∧
    ∀ f : Int → Int, Copy (withCount os f) s source dest = Copy os s source dest := by
  constructor
  · rw [Copy_eq_transfer os s source dest sfi hs hreg hd]
    unfold Copy.transfer
    cases err <;> simp [hl, ho, hc, hst]
  · intro f
    rw [Copy_eq_transfer os s source dest sfi hs hreg hd,
      Copy_eq_transfer (withCount os f) s source dest sfi hs hreg hd]
    unfold Copy.transfer
    cases err <;> simp [withCount, hl, ho, hc, hst]

/-- The streaming path on the platform whose stream step hands over 2 bytes
and reports no error: `Copy` returns nil, and `c.txt` holds 2 bytes. -/
theorem Copy_stream_count_unused_witness :
    (memOS.Stat sampleFSNoLink "a.txt" = .ok ⟨"a.txt", 5, 0o644, ⟨1400000000, 5⟩, 1, 1⟩ ∧
      FileMode.IsRegular 0o644 = true ∧
      (lossyOS 2).Stat sampleFSNoLink "c.txt" = .error .ErrNotExist ∧
      (lossyOS 2).Link sampleFSNoLink "a.txt" "c.txt"
        = (some (.Errno 18), sampleFSNoLink)) ∧
    (Copy (lossyOS 2) sampleFSNoLink "a.txt" "c.txt").1 = none ∧
    Read (lossyOS 2) (Copy (lossyOS 2) sampleFSNoLink "a.txt" "c.txt").2 "c.txt"
      = .ok [104, 101] :=
  ⟨⟨rfl, by decide, rfl, rfl⟩,
   (Copy_stream_count_unused (lossyOS 2) sampleFSNoLink "a.txt" "c.txt" _ _ _ _ _ _ _ _ _ _
      rfl (by decide) (Or.inl ⟨_, rfl, rfl⟩) rfl rfl rfl rfl).1,
   rfl⟩


/-! ## Theorems: sorting -/

/-! ### `FilesInfo.Swap` exchanges two elements -/

theorem perm_cons_set {α : Type} (x b : α) (t : List α) (j : Nat) (h : t[j]? = some b) :
    List.Perm (b :: t.set j x) (x :: t) := by
  induction t generalizing j with
  | nil => simp at h
  | cons y t ih =>
    cases j with
    | zero =>
      simp at h
      subst h
      simpa using List.Perm.swap x y t
    | succ j =>
      rw [List.getElem?_cons_succ] at h
      simp only [List.set_cons_succ]
      exact (List.Perm.swap y b _).trans (((ih j h).cons y).trans (List.Perm.swap x y t))

theorem perm_set_set {α : Type} (f : List α) (i j : Nat) (a b : α)
    (ha : f[i]? = some a) (hb : f[j]? = some b) :
    List.Perm ((f.set i b).set j a) f := by
  induction f generalizing i j with
  | nil => simp at ha
  | cons x t ih =>
    cases i with
    | zero =>
      simp at ha
      subst ha
      cases j with
      | zero =>
        simp at hb
        subst hb
        simp
      | succ j =>
        rw [List.getElem?_cons_succ] at hb
        simpa using perm_cons_set x b t j hb
    | succ i =>
      rw [List.getElem?_cons_succ] at ha
      cases j with
      | zero =>
        simp at hb
        subst hb
        simpa using perm_cons_set x a t i ha
      | succ j =>
        rw [List.getElem?_cons_succ] at hb
        simpa using (ih i j ha hb).cons x

/-- A call of `FilesInfo.Swap` that returns leaves a permutation of the
slice. -/
theorem FilesInfo.Swap_perm (f g : FilesInfo) (i j : Nat)
    (h : FilesInfo.Swap f i j = some g) : List.Perm g f := by
  unfold FilesInfo.Swap at h
  cases ha : f[i]? with
  | none => simp [ha] at h
  | some a =>
    cases hb : f[j]? with
    | none => simp [ha, hb] at h
    | some b =>
      simp [ha, hb] at h
      subst h
      exact perm_set_set f i j a b ha hb

/-- On indices in range `FilesInfo.Swap` returns, and the slice it leaves has
the two elements exchanged and the others in place. -/
theorem FilesInfo.Swap_spec (f : FilesInfo) (i j : Nat) (hi : i < f.length)
    (hj : j < f.length) :
    ∃ g : FilesInfo, FilesInfo.Swap f i j = some g ∧ g.length = f.length ∧
      g[i]? = f[j]? ∧ g[j]? = f[i]? ∧ ∀ k, k ≠ i → k ≠ j → g[k]? = f[k]? := by
  have ha : f[i]? = some f[i] := List.getElem?_eq_getElem hi
  have hb : f[j]? = some f[j] := List.getElem?_eq_getElem hj
  refine ⟨(f.set i f[j]).set j f[i], ?_, by simp, ?_, ?_, ?_⟩
  · simp [FilesInfo.Swap, ha, hb]
  · by_cases hij : j = i
    · subst hij
      simp [List.getElem?_set, hj]
    · simp [List.getElem?_set, hij, hi, hj]
  · simp [List.getElem?_set, hi, hj]
  · intro k hki hkj
    simp [List.getElem?_set, Ne.symm hki, Ne.symm hkj]

/-- Calls of `FilesInfo.Swap` leave a permutation of the slice. -/
theorem runSwaps_perm (data : Interface) (hswap : data.Swap = FilesInfo.Swap)
    (swaps : List (Nat × Nat)) :
    ∀ f g : FilesInfo, runSwaps data f swaps = some g → List.Perm g f := by
  induction swaps with
  | nil =>
    intro f g h
    simp [runSwaps] at h
    subst h
    exact List.Perm.refl _
  | cons p rest ih =>
    intro f g h
    obtain ⟨i, j⟩ := p
    unfold runSwaps at h
    rw [hswap] at h
    cases hs : FilesInfo.Swap f i j with
    | none => simp [hs] at h
    | some f1 =>
      simp only [hs] at h
      exact (ih f1 g h).trans (FilesInfo.Swap_perm f f1 i j hs)

/-! ### The three comparisons are transitive orderings -/

theorem ltName_irrefl (a : FileInfo) : ltName a a = false := by
  simp [ltName]

theorem ltName_trans (a b c : FileInfo) :
    ltName a b = true → ltName b c = true → ltName a c = true := by
  unfold ltName
  intro h1 h2
  exact decide_eq_true (lt_trans (of_decide_eq_true h1) (of_decide_eq_true h2))

theorem ltName_negtrans (a b c : FileInfo) :
    ltName a b = false → ltName b c = false → ltName a c = false := by
  unfold ltName
  intro h1 h2
  have h3 : b.Name ≤ a.Name := not_lt.mp (of_decide_eq_false h1)
  have h4 : c.Name ≤ b.Name := not_lt.mp (of_decide_eq_false h2)
  exact decide_eq_false (not_lt.mpr (le_trans h4 h3))

theorem ltSize_irrefl (a : FileInfo) : ltSize a a = false := by
  simp [ltSize]

theorem ltSize_trans (a b c : FileInfo) :
    ltSize a b = true → ltSize b c = true → ltSize a c = true := by
  unfold ltSize
  intro h1 h2
  exact decide_eq_true (lt_trans (of_decide_eq_true h1) (of_decide_eq_true h2))

theorem ltSize_negtrans (a b c : FileInfo) :
    ltSize a b = false → ltSize b c = false → ltSize a c = false := by
  unfold ltSize
  intro h1 h2
  have h3 : b.Size ≤ a.Size := not_lt.mp (of_decide_eq_false h1)
  have h4 : c.Size ≤ b.Size := not_lt.mp (of_decide_eq_false h2)
  exact decide_eq_false (not_lt.mpr (le_trans h4 h3))

theorem ltModTime_irrefl (a : FileInfo) : ltModTime a a = false := by
  simp [ltModTime, Time.Before]

theorem ltModTime_trans (a b c : FileInfo) :
    ltModTime a b = true → ltModTime b c = true → ltModTime a c = true := by
  unfold ltModTime Time.Before
  intro h1 h2
  simp only [Bool.or_eq_true, Bool.and_eq_true, decide_eq_true_eq] at h1 h2 ⊢
  omega

theorem ltModTime_negtrans (a b c : FileInfo) :
    ltModTime a b = false → ltModTime b c = false → ltModTime a c = false := by
  unfold ltModTime Time.Before
  intro h1 h2
  simp only [Bool.or_eq_false_iff, Bool.and_eq_false_iff, decide_eq_false_iff_not] at h1 h2 ⊢
  omega

/-! ### The six interfaces meet what package `sort` asks -/

theorem ByName_sliceLike : SliceLike ByName ltName where
  len := fun _ => rfl
  less := by
    intro f i j a b ha hb
    simp [ByName, ByName.Less, ltName, ha, hb]
  swap := FilesInfo.Swap_spec
  irrefl := ltName_irrefl
  trans := ltName_trans
  negtrans := ltName_negtrans

theorem BySize_sliceLike : SliceLike BySize ltSize where
  len := fun _ => rfl
  less := by
    intro f i j a b ha hb
    simp [BySize, BySize.Less, ltSize, ha, hb]
  swap := FilesInfo.Swap_spec
  irrefl := ltSize_irrefl
  trans := ltSize_trans
  negtrans := ltSize_negtrans

theorem ByModTime_sliceLike : SliceLike ByModTime ltModTime where
  len := fun _ => rfl
  less := by
    intro f i j a b ha hb
    simp [ByModTime, ByModTime.Less, ltModTime, ha, hb]
  swap := FilesInfo.Swap_spec
  irrefl := ltModTime_irrefl
  trans := ltModTime_trans
  negtrans := ltModTime_negtrans

/-- Reversing an interface that meets what is asked gives one that meets it
for the comparison with its arguments swapped. -/
theorem Reverse_sliceLike (data : Interface) (lt : FileInfo → FileInfo → Bool)
    (hd : SliceLike data lt) : SliceLike (Reverse data) (fun a b => lt b a) where
  len := hd.len
  less := fun f i j a b ha hb => hd.less f j i b a hb ha
  swap := hd.swap
  irrefl := hd.irrefl
  trans := fun a b c h1 h2 => hd.trans c b a h2 h1
  negtrans := fun a b c h1 h2 => hd.negtrans c b a h2 h1

/-- A sorter that keeps the promise of `sort.Sort`, run on an interface that
meets what is asked and swaps with `FilesInfo.Swap`, returns a permutation of
the slice in which no element sorts before its left neighbour. -/
theorem sorted_of_contract (sort : Sorter) (hsort : SortContract sort)
    (data : Interface) (lt : FileInfo → FileInfo → Bool) (hd : SliceLike data lt)
    (hswap : data.Swap = FilesInfo.Swap) (f : FilesInfo) :
    ∃ g, sort data f = some g ∧ List.Perm g f ∧
      ∀ i a b, g[i]? = some a → g[i + 1]? = some b → lt b a = false := by
  obtain ⟨swaps, g, hs, hr, hless⟩ := hsort data lt hd f
  refine ⟨g, hs, runSwaps_perm data hswap swaps f g hr, ?_⟩
  intro i a b ha hb
  have hlt : i + 1 < g.length := by
    rcases Nat.lt_or_ge (i + 1) g.length with h | h
    · exact h
    · rw [List.getElem?_eq_none h] at hb
      cases hb
  have h1 := hless i (i + 1) (Nat.lt_succ_self i) (by rw [hd.len]; exact hlt)
  rw [hd.less g (i + 1) i b a hb ha] at h1
  exact Option.some.inj h1

/-- C7: whatever procedure the library's `sort.Sort` is, as long as it keeps
what package `sort` promises of it, each of the six sort operations returns a
permutation of the listing in which every neighbour pair is in order by its
key: names `a ≤ b` after `SortByName`, sizes `a ≤ b` after `SortBySize`, the
later time not before the earlier after `SortByModTime`, and the opposite
for the three reverse operations, whose comparator is the ascending one with
its arguments swapped.  This holds for every listing, the empty one, one of a
single element and one with equal keys among them. -/
theorem SortBy_spec (sort : Sorter) (hsort : SortContract sort) (fis : FilesInfo) :
    (∃ r, FilesInfo.SortByName sort fis = some r ∧ List.Perm r fis ∧
      ∀ i a b, r[i]? = some a → r[i + 1]? = some b → a.Name ≤ b.Name) ∧
    (∃ r, FilesInfo.SortBySize sort fis = some r ∧ List.Perm r fis ∧
      ∀ i a b, r[i]? = some a → r[i + 1]? = some b → a.Size ≤ b.Size) ∧
    (∃ r, FilesInfo.SortByModTime sort fis = some r ∧ List.Perm r fis ∧
      ∀ i a b, r[i]? = some a → r[i + 1]? = some b →
        b.ModTime.Before a.ModTime = false) ∧
    (∃ r, FilesInfo.SortByNameReverse sort fis = some r ∧ List.Perm r fis ∧
      ∀ i a b, r[i]? = some a → r[i + 1]? = some b → b.Name ≤ a.Name) ∧
    (∃ r, FilesInfo.SortBySizeReverse sort fis = some r ∧ List.Perm r fis ∧
      ∀ i a b, r[i]? = some a → r[i + 1]? = some b → b.Size ≤ a.Size) ∧
    (∃ r, FilesInfo.SortByModTimeReverse sort fis = some r ∧ List.Perm r fis ∧
      ∀ i a b, r[i]? = some a → r[i + 1]? = some b →
        a.ModTime.Before b.ModTime = false) ∧
    (∀ (data : Interface) (f : FilesInfo) (i j : Nat),
      (Reverse data).Less f i j = data.Less f j i) := by
  refine ⟨?_, ?_, ?_, ?_, ?_, ?_, fun _ _ _ _ => rfl⟩
  · obtain ⟨r, hr, hp, ho⟩ :=
      sorted_of_contract sort hsort ByName ltName ByName_sliceLike rfl fis
    refine ⟨r, hr, hp, fun i a b ha hb => ?_⟩
    exact not_lt.mp (of_decide_eq_false (ho i a b ha hb))
  · obtain ⟨r, hr, hp, ho⟩ :=
      sorted_of_contract sort hsort BySize ltSize BySize_sliceLike rfl fis
    refine ⟨r, hr, hp, fun i a b ha hb => ?_⟩
    exact not_lt.mp (of_decide_eq_false (ho i a b ha hb))
  · obtain ⟨r, hr, hp, ho⟩ :=
      sorted_of_contract sort hsort ByModTime ltModTime ByModTime_sliceLike rfl fis
    exact ⟨r, hr, hp, ho⟩
  · obtain ⟨r, hr, hp, ho⟩ :=
      sorted_of_contract sort hsort (Reverse ByName) (fun a b => ltName b a)
        (Reverse_sliceLike ByName ltName ByName_sliceLike) rfl fis
    refine ⟨r, hr, hp, fun i a b ha hb => ?_⟩
    exact not_lt.mp (of_decide_eq_false (ho i a b ha hb))
  · obtain ⟨r, hr, hp, ho⟩ :=
      sorted_of_contract sort hsort (Reverse BySize) (fun a b => ltSize b a)
        (Reverse_sliceLike BySize ltSize BySize_sliceLike) rfl fis
    refine ⟨r, hr, hp, fun i a b ha hb => ?_⟩
    exact not_lt.mp (of_decide_eq_false (ho i a b ha hb))
  · obtain ⟨r, hr, hp, ho⟩ :=
      sorted_of_contract sort hsort (Reverse ByModTime) (fun a b => ltModTime b a)
        (Reverse_sliceLike ByModTime ltModTime ByModTime_sliceLike) rfl fis
    exact ⟨r, hr, hp, ho⟩

/-! ### Insertion sort keeps the promise of `sort.Sort` -/

theorem getElem?_mid {α : Type} (l : List α) (y x : α) (r : List α) :
    (l ++ y :: x :: r)[l.length]? = some y := by
  rw [List.getElem?_append_right (le_refl _)]
  simp

theorem getElem?_mid_succ {α : Type} (l : List α) (y x : α) (r : List α) :
    (l ++ y :: x :: r)[l.length + 1]? = some x := by
  rw [List.getElem?_append_right (by omega)]
  simp

theorem set_set_mid {α : Type} (l : List α) (y x : α) (r : List α) :
    ((l ++ y :: x :: r).set (l.length + 1) y).set l.length x = l ++ x :: y :: r := by
  induction l with
  | nil => simp
  | cons a l ih => simp [ih]

/-- On an interface that meets what is asked, `Swap` at two indices in range
is the slice with the two elements set to each other. -/
theorem SliceLike.swap_eq {data : Interface} {lt : FileInfo → FileInfo → Bool}
    (hd : SliceLike data lt) (f : FilesInfo) (i j : Nat) (a b : FileInfo)
    (ha : f[i]? = some a) (hb : f[j]? = some b) :
    data.Swap f i j = some ((f.set i b).set j a) := by
  have hi : i < f.length := by
    rcases Nat.lt_or_ge i f.length with h | h
    · exact h
    · rw [List.getElem?_eq_none h] at ha
      cases ha
  have hj : j < f.length := by
    rcases Nat.lt_or_ge j f.length with h | h
    · exact h
    · rw [List.getElem?_eq_none h] at hb
      cases hb
  obtain ⟨g, hg, _, hgi, hgj, hgk⟩ := hd.swap f i j hi hj
  obtain ⟨g2, hg2, _, hi2, hj2, hk2⟩ := FilesInfo.Swap_spec f i j hi hj
  have h2 : g2 = (f.set i b).set j a := by
    simp [FilesInfo.Swap, ha, hb] at hg2
    exact hg2.symm
  rw [hg, ← h2]
  congr 1
  apply List.ext_getElem?
  intro k
  by_cases hki : k = i
  · subst hki
    rw [hgi, hi2]
  · by_cases hkj : k = j
    · subst hkj
      rw [hgj, hj2]
    · rw [hgk k hki hkj, hk2 k hki hkj]

/-- The inner loop, run at position `lr.length` of a slice that has the
element `x` there, is `insertBack`. -/
theorem insertionSort.inner_eq (data : Interface) (lt : FileInfo → FileInfo → Bool)
    (hd : SliceLike data lt) (x : FileInfo) (lr r : List FileInfo) :
    insertionSort.inner data (lr.reverse ++ x :: r) lr.length
      = some (insertBack lt x lr r) := by
  induction lr generalizing r with
  | nil => simp [insertionSort.inner, insertBack]
  | cons y lr ih =>
    have hf : (y :: lr).reverse ++ x :: r = lr.reverse ++ y :: x :: r := by simp
    have hlen : lr.length = lr.reverse.length := by simp
    have h0 : (lr.reverse ++ y :: x :: r)[lr.length]? = some y := by
      rw [hlen]; exact getElem?_mid _ _ _ _
    have h1 : (lr.reverse ++ y :: x :: r)[lr.length + 1]? = some x := by
      rw [hlen]; exact getElem?_mid_succ _ _ _ _
    have hsw : ((lr.reverse ++ y :: x :: r).set (lr.length + 1) y).set lr.length x
        = lr.reverse ++ x :: y :: r := by
      rw [hlen]; exact set_set_mid _ _ _ _
    rw [hf, List.length_cons]
    unfold insertionSort.inner
    rw [hd.less _ _ _ _ _ h1 h0]
    cases hlt : lt x y
    · simp [insertBack, hlt]
    · simp only [insertBack, hlt, if_true]
      rw [hd.swap_eq _ _ _ _ _ h1 h0, hsw]
      exact ih (y :: r)

theorem insertBack_append (lt : FileInfo → FileInfo → Bool) (x : FileInfo)
    (lr m rest : List FileInfo) :
    insertBack lt x lr (m ++ rest) = insertBack lt x lr m ++ rest := by
  induction lr generalizing m with
  | nil => simp [insertBack]
  | cons y lr ih =>
    unfold insertBack
    cases lt x y
    · simp
    · simpa using ih (y :: m)

theorem insertBack_perm (lt : FileInfo → FileInfo → Bool) (x : FileInfo)
    (lr r : List FileInfo) :
    List.Perm (insertBack lt x lr r) (lr.reverse ++ x :: r) := by
  induction lr generalizing r with
  | nil => simp [insertBack]
  | cons y lr ih =>
    unfold insertBack
    cases lt x y
    · simp
    · simp only [if_true]
      refine (ih (y :: r)).trans ?_
      simp only [List.reverse_cons, List.append_assoc, List.singleton_append]
      exact List.Perm.append_left _ (List.Perm.swap _ _ _)

/-- Inserting `x` keeps neighbours in order: if the slice without `x` has no
neighbour pair out of order, and `x` is less than the first element already
passed, the slice with `x` put in has none either. -/
theorem insertBack_chain (lt : FileInfo → FileInfo → Bool)
    (hasym : ∀ a b, lt a b = true → lt b a = false) (x : FileInfo)
    (lr m : List FileInfo)
    (hc : List.Chain' (fun a b => lt b a = false) (lr.reverse ++ m))
    (hx : ∀ y ∈ m.head?, lt x y = true) :
    List.Chain' (fun a b => lt b a = false) (insertBack lt x lr m) := by
  induction lr generalizing m with
  | nil =>
    simp only [insertBack]
    simp only [List.reverse_nil, List.nil_append] at hc
    cases m with
    | nil => simp
    | cons y m =>
      rw [List.chain'_cons]
      exact ⟨hasym _ _ (hx y (by simp)), hc⟩
  | cons y lr ih =>
    unfold insertBack
    cases hlt : lt x y
    · simp only [Bool.false_eq_true, if_false]
      simp only [List.reverse_cons, List.append_assoc, List.singleton_append] at hc ⊢
      rw [List.chain'_split] at hc ⊢
      refine ⟨hc.1, ?_⟩
      rw [List.chain'_cons]
      refine ⟨hlt, ?_⟩
      cases m with
      | nil => simp
      | cons z m =>
        rw [List.chain'_cons]
        exact ⟨hasym _ _ (hx z (by simp)), (List.chain'_cons.mp hc.2).2⟩
    · simp only [if_true]
      apply ih
      · simpa using hc
      · intro z hz
        simp at hz
        subst hz
        exact hlt

theorem SliceLike.asymm {data : Interface} {lt : FileInfo → FileInfo → Bool}
    (hd : SliceLike data lt) (a b : FileInfo) (h : lt a b = true) : lt b a = false := by
  cases hba : lt b a
  · rfl
  · have h2 := hd.trans a b a h hba
    rw [hd.irrefl a] at h2
    cases h2

theorem insertionSort.outer_spec (data : Interface) (lt : FileInfo → FileInfo → Bool)
    (hd : SliceLike data lt) (count : Nat) :
    ∀ (f : FilesInfo) (i : Nat), i + count = f.length →
      List.Chain' (fun a b => lt b a = false) (f.take i) →
      ∃ g, insertionSort.outer data f i count = some g ∧ List.Perm g f ∧
        List.Chain' (fun a b => lt b a = false) g := by
  induction count with
  | zero =>
    intro f i hi hc
    refine ⟨f, rfl, List.Perm.refl _, ?_⟩
    have : i = f.length := by omega
    subst this
    simpa using hc
  | succ count ih =>
    intro f i hi hc
    have hlt : i < f.length := by omega
    have hsplit : f = ((f.take i).reverse).reverse ++ f[i] :: f.drop (i + 1) := by
      rw [List.reverse_reverse, List.getElem_cons_drop f i hlt, List.take_append_drop]
    have hlen : ((f.take i).reverse).length = i := by
      simp [List.length_take]; omega
    have hinner : insertionSort.inner data f i
        = some (insertBack lt f[i] (f.take i).reverse (f.drop (i + 1))) := by
      have h := insertionSort.inner_eq data lt hd f[i] (f.take i).reverse (f.drop (i + 1))
      rw [← hsplit, hlen] at h
      exact h
    have hperm : List.Perm (insertBack lt f[i] (f.take i).reverse (f.drop (i + 1))) f := by
      have h := insertBack_perm lt f[i] (f.take i).reverse (f.drop (i + 1))
      rw [← hsplit] at h
      exact h
    have happ : insertBack lt f[i] (f.take i).reverse (f.drop (i + 1))
        = insertBack lt f[i] (f.take i).reverse [] ++ f.drop (i + 1) := by
      simpa using insertBack_append lt f[i] (f.take i).reverse [] (f.drop (i + 1))
    have hl2 : (insertBack lt f[i] (f.take i).reverse []).length = i + 1 := by
      have h := (insertBack_perm lt f[i] (f.take i).reverse []).length_eq
      simp [List.length_take] at h
      omega
    have hchain : List.Chain' (fun a b => lt b a = false)
        (insertBack lt f[i] (f.take i).reverse []) := by
      apply insertBack_chain lt hd.asymm
      · simpa using hc
      · simp
    obtain ⟨g, hg, hgp, hgc⟩ := ih (insertBack lt f[i] (f.take i).reverse (f.drop (i + 1)))
      (i + 1) (by rw [hperm.length_eq]; omega)
      (by rw [happ, ← hl2, List.take_left']; exact hchain; rfl)
    refine ⟨g, ?_, hgp.trans hperm, hgc⟩
    unfold insertionSort.outer
    rw [hinner]
    exact hg

theorem runSwaps_cons (data : Interface) (f f1 g : FilesInfo) (i j : Nat)
    (swaps : List (Nat × Nat)) (h1 : data.Swap f i j = some f1)
    (h2 : runSwaps data f1 swaps = some g) :
    runSwaps data f ((i, j) :: swaps) = some g := by
  simp [runSwaps, h1, h2]

theorem runSwaps_append (data : Interface) (s1 s2 : List (Nat × Nat)) :
    ∀ f g h : FilesInfo, runSwaps data f s1 = some g → runSwaps data g s2 = some h →
      runSwaps data f (s1 ++ s2) = some h := by
  induction s1 with
  | nil =>
    intro f g h h1 h2
    simp [runSwaps] at h1
    subst h1
    simpa using h2
  | cons p rest ih =>
    intro f g h h1 h2
    obtain ⟨i, j⟩ := p
    unfold runSwaps at h1
    cases hs : data.Swap f i j with
    | none => simp [hs] at h1
    | some f1 =>
      simp only [hs] at h1
      exact runSwaps_cons data f f1 h i j (rest ++ s2) hs (ih f1 g h h1 h2)

/-- The inner loop changes the slice by calls of `Swap` only. -/
theorem insertionSort.inner_swaps (data : Interface) (j : Nat) :
    ∀ f g : FilesInfo, insertionSort.inner data f j = some g →
      ∃ swaps, runSwaps data f swaps = some g := by
  induction j with
  | zero =>
    intro f g h
    simp [insertionSort.inner] at h
    exact ⟨[], by simp [runSwaps, h]⟩
  | succ j ih =>
    intro f g h
    unfold insertionSort.inner at h
    cases hl : data.Less f (j + 1) j with
    | none => simp [hl] at h
    | some c =>
      cases c with
      | false =>
        simp [hl] at h
        exact ⟨[], by simp [runSwaps, h]⟩
      | true =>
        simp only [hl] at h
        cases hs : data.Swap f (j + 1) j with
        | none => simp [hs] at h
        | some f1 =>
          simp only [hs] at h
          obtain ⟨swaps, hsw⟩ := ih f1 g h
          exact ⟨(j + 1, j) :: swaps, runSwaps_cons data f f1 g _ _ swaps hs hsw⟩

/-- The outer loop changes the slice by calls of `Swap` only. -/
theorem insertionSort.outer_swaps (data : Interface) (count : Nat) :
    ∀ (f g : FilesInfo) (i : Nat), insertionSort.outer data f i count = some g →
      ∃ swaps, runSwaps data f swaps = some g := by
  induction count with
  | zero =>
    intro f g i h
    simp [insertionSort.outer] at h
    exact ⟨[], by simp [runSwaps, h]⟩
  | succ count ih =>
    intro f g i h
    unfold insertionSort.outer at h
    cases hin : insertionSort.inner data f i with
    | none => simp [hin] at h
    | some f1 =>
      simp only [hin] at h
      obtain ⟨s1, h1⟩ := insertionSort.inner_swaps data i f f1 hin
      obtain ⟨s2, h2⟩ := ih f1 g (i + 1) h
      exact ⟨s1 ++ s2, runSwaps_append data s1 s2 f f1 g h1 h2⟩

/-- Insertion sort over the whole slice keeps the promise of `sort.Sort`. -/
theorem insertionSorter_contract : SortContract insertionSorter := by
  intro data lt hd f
  have h : ∃ g, insertionSorter data f = some g ∧ List.Perm g f ∧
      List.Chain' (fun a b => lt b a = false) g := by
    unfold insertionSorter insertionSort
    rw [hd.len f]
    cases f with
    | nil => exact ⟨[], rfl, List.Perm.refl _, by simp⟩
    | cons a t =>
      apply insertionSort.outer_spec data lt hd
      · simp; omega
      · simp
  obtain ⟨g, hg, hp, hc⟩ := h
  have hsw : ∃ swaps, runSwaps data f swaps = some g := by
    unfold insertionSorter insertionSort at hg
    exact insertionSort.outer_swaps data _ f g 1 hg
  obtain ⟨swaps, hswaps⟩ := hsw
  refine ⟨swaps, g, hg, hswaps, ?_⟩
  intro i j hij hj
  rw [hd.len] at hj
  haveI : IsTrans FileInfo (fun a b => lt b a = false) :=
    ⟨fun a b c h1 h2 => hd.negtrans c b a h2 h1⟩
  have hpw : List.Pairwise (fun a b => lt b a = false) g := List.chain'_iff_pairwise.mp hc
  have h1 := List.pairwise_iff_getElem.mp hpw i j (by omega) hj hij
  rw [hd.less g j i g[j] g[i] (List.getElem?_eq_getElem hj)
    (List.getElem?_eq_getElem (by omega)), h1]

/-- The six operations with insertion sort as the sorter, on a listing with
equal names, sizes and times in it: the sorter keeps the promise, so C7
applies to it, and the listings it speaks of are the ones written out. -/
theorem SortBy_spec_witness :
    SortContract insertionSorter ∧
    (∃ r, FilesInfo.SortBySize insertionSorter sampleListing = some r ∧
      List.Perm r sampleListing ∧
      ∀ i a b, r[i]? = some a → r[i + 1]? = some b → a.Size ≤ b.Size) ∧
    (∃ r, FilesInfo.SortByNameReverse insertionSorter sampleListing = some r ∧
      List.Perm r sampleListing ∧
      ∀ i a b, r[i]? = some a → r[i + 1]? = some b → b.Name ≤ a.Name) ∧
    (FilesInfo.SortBySize insertionSorter sampleListing).map (fun l => l.map FileInfo.Size)
      = some [0, 2, 5, 5, 7] ∧
    (FilesInfo.SortByModTimeReverse insertionSorter sampleListing).map
        (fun l => l.map FileInfo.Name)
      = some ["a.txt", "a.lnk", "a.txt", "b.txt", "dir"] :=
  ⟨insertionSorter_contract,
   (SortBy_spec insertionSorter insertionSorter_contract sampleListing).2.1,
   (SortBy_spec insertionSorter insertionSorter_contract sampleListing).2.2.2.1,
   by decide, by decide⟩

end fileutil
